import Mathlib

/-!
Verification of the portage search backend (`src/backends/portage/custom.py`).

The development shallowly embeds the backend's search/filter/progress pipeline:

* `compute_equal_steps` works on Python floats, so we model IEEE-754
  double-precision arithmetic exactly: a double value is represented by the
  rational it denotes, and each arithmetic operation is followed by correct
  rounding to 53 significant bits (round to nearest, ties to even).  All the
  values that occur are positive and far away from overflow/underflow, so
  normal-range rounding is the whole story.
* The four search drivers are embedded as functions from an explicit database
  model to the list of events (status, percentage, package, error) they emit,
  paired with an optional uncaught Python exception.
-/

namespace PK

-- The arithmetic on `ℚ` is `@[irreducible]` by default, which blocks the
-- evaluation of concrete runs of the model by `decide`; make it reducible
-- for this development (proof terms are unaffected).
attribute [local semireducible] Rat.mul Rat.add Rat.sub Rat.inv

set_option maxRecDepth 100000

/-! ## IEEE-754 double-precision model -/

/-- Fuel-driven floor of `log₂`, written with structural recursion so that the
kernel can evaluate it. -/
def natLog2fuel : ℕ → ℕ → ℕ
  | 0, _ => 0
  | fuel + 1, n => if n < 2 then 0 else natLog2fuel fuel (n / 2) + 1

/-- `natLog2 n` is `⌊log₂ n⌋` for `n ≥ 1`. -/
def natLog2 (n : ℕ) : ℕ := natLog2fuel n n

lemma natLog2fuel_spec : ∀ fuel n, 1 ≤ n → n ≤ fuel →
    2 ^ natLog2fuel fuel n ≤ n ∧ n < 2 ^ (natLog2fuel fuel n + 1) := by
  intro fuel
  induction fuel with
  | zero => intro n h1 h2; omega
  | succ fuel ih =>
    intro n h1 h2
    simp only [natLog2fuel]
    split
    · refine ⟨by simpa using h1, ?_⟩
      have hn : n < 2 := by assumption
      calc n < 2 := hn
      _ ≤ 2 ^ (0 + 1) := by norm_num
    · have hn2 : 2 ≤ n := by omega
      have hhalf1 : 1 ≤ n / 2 := (Nat.one_le_div_iff (by omega)).mpr hn2
      have hhalf2 : n / 2 ≤ fuel := by
        have := Nat.div_lt_self (by omega : 0 < n) (by omega : 1 < 2)
        omega
      obtain ⟨hlo, hhi⟩ := ih (n / 2) hhalf1 hhalf2
      constructor
      · calc 2 ^ (natLog2fuel fuel (n / 2) + 1)
            = 2 * 2 ^ natLog2fuel fuel (n / 2) := by ring
        _ ≤ 2 * (n / 2) := by omega
        _ ≤ n := by omega
      · calc n < 2 * (n / 2) + 2 := by omega
        _ = 2 * (n / 2 + 1) := by ring
        _ ≤ 2 * 2 ^ (natLog2fuel fuel (n / 2) + 1) := by omega
        _ = 2 ^ (natLog2fuel fuel (n / 2) + 1 + 1) := by ring

lemma natLog2_spec {n : ℕ} (h : 1 ≤ n) :
    2 ^ natLog2 n ≤ n ∧ n < 2 ^ (natLog2 n + 1) :=
  natLog2fuel_spec n n h le_rfl

/-- Round a rational to the nearest integer, ties to even. -/
def rne (r : ℚ) : ℤ :=
  if r - ⌊r⌋ < 1 / 2 then ⌊r⌋
  else if 1 / 2 < r - ⌊r⌋ then ⌊r⌋ + 1
  else if ⌊r⌋ % 2 = 0 then ⌊r⌋ else ⌊r⌋ + 1

lemma rne_eq_floor {r : ℚ} (h : r - ⌊r⌋ < 1 / 2) : rne r = ⌊r⌋ := by
  simp only [rne]
  rw [if_pos h]

lemma rne_eq_ceil {r : ℚ} (h : 1 / 2 < r - ⌊r⌋) : rne r = ⌊r⌋ + 1 := by
  simp only [rne]
  rw [if_neg (by linarith), if_pos h]

lemma rne_tie_even {r : ℚ} (h : r - ⌊r⌋ = 1 / 2) (he : ⌊r⌋ % 2 = 0) :
    rne r = ⌊r⌋ := by
  simp only [rne]
  rw [if_neg (by rw [h]; exact lt_irrefl _), if_neg (by rw [h]; exact lt_irrefl _), if_pos he]

lemma rne_tie_odd {r : ℚ} (h : r - ⌊r⌋ = 1 / 2) (ho : ¬ ⌊r⌋ % 2 = 0) :
    rne r = ⌊r⌋ + 1 := by
  simp only [rne]
  rw [if_neg (by rw [h]; exact lt_irrefl _), if_neg (by rw [h]; exact lt_irrefl _), if_neg ho]

lemma rne_cases (r : ℚ) : rne r = ⌊r⌋ ∨ rne r = ⌊r⌋ + 1 := by
  rcases lt_trichotomy (r - ⌊r⌋) (1 / 2) with h | h | h
  · exact Or.inl (rne_eq_floor h)
  · by_cases he : ⌊r⌋ % 2 = 0
    · exact Or.inl (rne_tie_even h he)
    · exact Or.inr (rne_tie_odd h he)
  · exact Or.inr (rne_eq_ceil h)

lemma floor_le_rne (r : ℚ) : ⌊r⌋ ≤ rne r := by
  rcases rne_cases r with h | h <;> rw [h] <;> omega

lemma rne_le_floor_add_one (r : ℚ) : rne r ≤ ⌊r⌋ + 1 := by
  rcases rne_cases r with h | h <;> rw [h] <;> omega

lemma abs_rne_sub_le (r : ℚ) : |(rne r : ℚ) - r| ≤ 1 / 2 := by
  have h0 : (⌊r⌋ : ℚ) ≤ r := Int.floor_le r
  have h1 : r < ⌊r⌋ + 1 := Int.lt_floor_add_one r
  rcases lt_trichotomy (r - ⌊r⌋) (1 / 2) with h | h | h
  · rw [rne_eq_floor h, abs_sub_le_iff]
    constructor <;> linarith
  · by_cases he : ⌊r⌋ % 2 = 0
    · rw [rne_tie_even h he, abs_sub_le_iff]
      constructor <;> linarith
    · rw [rne_tie_odd h he, abs_sub_le_iff]
      push_cast
      constructor <;> linarith
  · rw [rne_eq_ceil h, abs_sub_le_iff]
    push_cast
    constructor <;> linarith

lemma rne_mono {r s : ℚ} (h : r ≤ s) : rne r ≤ rne s := by
  have hfl : ⌊r⌋ ≤ ⌊s⌋ := Int.floor_le_floor h
  rcases eq_or_lt_of_le hfl with heq | hlt
  · have hfr : r - ⌊r⌋ ≤ s - ⌊s⌋ := by
      rw [← heq]
      push_cast
      linarith
    rcases lt_trichotomy (r - ⌊r⌋) (1 / 2) with h1 | h1 | h1
    · rw [rne_eq_floor h1, heq]
      exact floor_le_rne s
    · by_cases he : ⌊r⌋ % 2 = 0
      · rw [rne_tie_even h1 he, heq]
        exact floor_le_rne s
      · rw [rne_tie_odd h1 he]
        have hs : (1 : ℚ) / 2 ≤ s - ⌊s⌋ := by rw [← h1]; exact hfr
        rcases lt_or_eq_of_le hs with h2 | h2
        · rw [rne_eq_ceil h2]
          omega
        · rw [rne_tie_odd h2.symm (by rw [← heq]; exact he)]
          omega
    · have h2 : 1 / 2 < s - ⌊s⌋ := lt_of_lt_of_le h1 hfr
      rw [rne_eq_ceil h1, rne_eq_ceil h2, heq]
  · calc rne r ≤ ⌊r⌋ + 1 := rne_le_floor_add_one r
    _ ≤ ⌊s⌋ := by omega
    _ ≤ rne s := floor_le_rne s

/-- Binade bounds for a positive rational written as a quotient of naturals. -/
lemma ratLog_bounds (a b : ℕ) (ha : 1 ≤ a) (hb : 1 ≤ b) :
    (2 : ℚ) ^ ((natLog2 a : ℤ) - natLog2 b - 1) < (a : ℚ) / (b : ℚ) ∧
    (a : ℚ) / (b : ℚ) < (2 : ℚ) ^ ((natLog2 a : ℤ) - natLog2 b + 1) := by
  have hbpos : (0 : ℚ) < (b : ℚ) := by exact_mod_cast hb
  obtain ⟨hA1, hA2⟩ := natLog2_spec ha
  obtain ⟨hB1, hB2⟩ := natLog2_spec hb
  have h2ne : (2 : ℚ) ≠ 0 := by norm_num
  have hA1' : (2 : ℚ) ^ ((natLog2 a : ℤ)) ≤ (a : ℚ) := by
    rw [zpow_natCast]
    exact_mod_cast hA1
  have hA2' : (a : ℚ) < (2 : ℚ) ^ ((natLog2 a : ℤ) + 1) := by
    have he : ((natLog2 a : ℤ) + 1) = ((natLog2 a + 1 : ℕ) : ℤ) := by push_cast; ring
    rw [he, zpow_natCast]
    exact_mod_cast hA2
  have hB1' : (2 : ℚ) ^ ((natLog2 b : ℤ)) ≤ (b : ℚ) := by
    rw [zpow_natCast]
    exact_mod_cast hB1
  have hB2' : (b : ℚ) < (2 : ℚ) ^ ((natLog2 b : ℤ) + 1) := by
    have he : ((natLog2 b : ℤ) + 1) = ((natLog2 b + 1 : ℕ) : ℤ) := by push_cast; ring
    rw [he, zpow_natCast]
    exact_mod_cast hB2
  constructor
  · rw [lt_div_iff hbpos]
    calc (2 : ℚ) ^ ((natLog2 a : ℤ) - natLog2 b - 1) * (b : ℚ)
        < (2 : ℚ) ^ ((natLog2 a : ℤ) - natLog2 b - 1) * (2 : ℚ) ^ ((natLog2 b : ℤ) + 1) := by
          apply mul_lt_mul_of_pos_left hB2'
          positivity
    _ = (2 : ℚ) ^ ((natLog2 a : ℤ)) := by
          rw [← zpow_add₀ h2ne]
          congr 1
          ring
    _ ≤ (a : ℚ) := hA1'
  · rw [div_lt_iff hbpos]
    calc (a : ℚ) < (2 : ℚ) ^ ((natLog2 a : ℤ) + 1) := hA2'
    _ = (2 : ℚ) ^ ((natLog2 a : ℤ) - natLog2 b + 1) * (2 : ℚ) ^ ((natLog2 b : ℤ)) := by
          rw [← zpow_add₀ h2ne]
          congr 1
          ring
    _ ≤ (2 : ℚ) ^ ((natLog2 a : ℤ) - natLog2 b + 1) * (b : ℚ) := by
          apply mul_le_mul_of_nonneg_left hB1'
          positivity

/-- Floor of `log₂` of a positive rational. -/
def floorLog2 (q : ℚ) : ℤ :=
  let g : ℤ := (natLog2 q.num.toNat : ℤ) - (natLog2 q.den : ℤ)
  if (2 : ℚ) ^ g ≤ q then g else g - 1

lemma floorLog2_spec (q : ℚ) (hq : 0 < q) :
    (2 : ℚ) ^ floorLog2 q ≤ q ∧ q < (2 : ℚ) ^ (floorLog2 q + 1) := by
  have hnum : 0 < q.num := Rat.num_pos.mpr hq
  have ha1 : 1 ≤ q.num.toNat := by omega
  have hb1 : 1 ≤ q.den := q.pos
  have hq_eq : ((q.num.toNat : ℚ)) / ((q.den : ℚ)) = q := by
    have h1 : ((q.num.toNat : ℚ)) = ((q.num : ℤ) : ℚ) := by
      have h2 : ((q.num.toNat : ℤ)) = q.num := Int.toNat_of_nonneg (le_of_lt hnum)
      exact_mod_cast h2
    rw [h1]
    exact Rat.num_div_den q
  obtain ⟨key2, key1⟩ := ratLog_bounds q.num.toNat q.den ha1 hb1
  rw [hq_eq] at key1 key2
  simp only [floorLog2]
  split_ifs with h
  · exact ⟨h, key1⟩
  · refine ⟨le_of_lt key2, ?_⟩
    have he : (natLog2 q.num.toNat : ℤ) - (natLog2 q.den : ℤ) - 1 + 1
        = (natLog2 q.num.toNat : ℤ) - (natLog2 q.den : ℤ) := by ring
    rw [he]
    exact lt_of_not_le h

/-- Correct rounding of a rational to an IEEE-754 double (normal range,
round to nearest, ties to even).  Only nonnegative values occur in the
program; for `q ≤ 0` the function returns `0` (exact for `q = 0`). -/
def roundDouble (q : ℚ) : ℚ :=
  if q ≤ 0 then 0
  else
    ((rne (q * (2 : ℚ) ^ ((52 : ℤ) - floorLog2 q)) : ℤ) : ℚ)
      * (2 : ℚ) ^ (floorLog2 q - (52 : ℤ))

/-- Double-precision multiplication: exact product, then correct rounding. -/
def fmul (x y : ℚ) : ℚ := roundDouble (x * y)

/-- Double-precision division: exact quotient, then correct rounding. -/
def fdiv (x y : ℚ) : ℚ := roundDouble (x / y)

lemma two_zpow_pos (n : ℤ) : (0 : ℚ) < (2 : ℚ) ^ n := by positivity

/-- The scaled significand `q·2^(52-e)` lies in `[2^52, 2^53)`. -/
lemma scaled_bounds (q : ℚ) (hq : 0 < q) :
    (2 : ℚ) ^ (52 : ℤ) ≤ q * (2 : ℚ) ^ ((52 : ℤ) - floorLog2 q) ∧
    q * (2 : ℚ) ^ ((52 : ℤ) - floorLog2 q) < (2 : ℚ) ^ (53 : ℤ) := by
  obtain ⟨h1, h2⟩ := floorLog2_spec q hq
  have h2ne : (2 : ℚ) ≠ 0 := by norm_num
  have hp : (0 : ℚ) < (2 : ℚ) ^ ((52 : ℤ) - floorLog2 q) := two_zpow_pos _
  constructor
  · calc (2 : ℚ) ^ (52 : ℤ)
        = (2 : ℚ) ^ floorLog2 q * (2 : ℚ) ^ ((52 : ℤ) - floorLog2 q) := by
          rw [← zpow_add₀ h2ne]
          congr 1
          ring
    _ ≤ q * (2 : ℚ) ^ ((52 : ℤ) - floorLog2 q) := by
          exact mul_le_mul_of_nonneg_right h1 (le_of_lt hp)
  · calc q * (2 : ℚ) ^ ((52 : ℤ) - floorLog2 q)
        < (2 : ℚ) ^ (floorLog2 q + 1) * (2 : ℚ) ^ ((52 : ℤ) - floorLog2 q) := by
          exact mul_lt_mul_of_pos_right h2 hp
    _ = (2 : ℚ) ^ (53 : ℤ) := by
          rw [← zpow_add₀ h2ne]
          congr 1
          ring

lemma roundDouble_nonneg (q : ℚ) : 0 ≤ roundDouble q := by
  unfold roundDouble
  split
  · exact le_refl 0
  · have hq : 0 < q := lt_of_not_le (by assumption)
    have hsc := (scaled_bounds q hq).1
    have hfl : (0 : ℤ) ≤ ⌊q * (2 : ℚ) ^ ((52 : ℤ) - floorLog2 q)⌋ := by
      apply Int.le_floor.mpr
      calc ((0 : ℤ) : ℚ) = 0 := by norm_num
      _ ≤ (2 : ℚ) ^ (52 : ℤ) := le_of_lt (two_zpow_pos _)
      _ ≤ _ := hsc
    have hr : (0 : ℤ) ≤ rne (q * (2 : ℚ) ^ ((52 : ℤ) - floorLog2 q)) :=
      le_trans hfl (floor_le_rne _)
    have : (0 : ℚ) ≤ ((rne (q * (2 : ℚ) ^ ((52 : ℤ) - floorLog2 q)) : ℤ) : ℚ) := by
      exact_mod_cast hr
    exact mul_nonneg this (le_of_lt (two_zpow_pos _))

lemma roundDouble_pos {q : ℚ} (hq : 0 < q) : 0 < roundDouble q := by
  unfold roundDouble
  rw [if_neg (not_le.mpr hq)]
  have hsc := (scaled_bounds q hq).1
  have hfl : (0 : ℤ) < ⌊q * (2 : ℚ) ^ ((52 : ℤ) - floorLog2 q)⌋ := by
    apply Int.lt_floor_iff.mpr
    calc ((0 : ℤ) : ℚ) + 1 = 1 := by norm_num
    _ ≤ (2 : ℚ) ^ (52 : ℤ) := by
        have : ((1 : ℚ)) = (2 : ℚ) ^ (0 : ℤ) := by norm_num
        rw [this]
        exact zpow_le_zpow_right₀ (by norm_num) (by norm_num)
    _ ≤ _ := hsc
  have hr : (0 : ℤ) < rne (q * (2 : ℚ) ^ ((52 : ℤ) - floorLog2 q)) :=
    lt_of_lt_of_le hfl (floor_le_rne _)
  have h1 : (0 : ℚ) < ((rne (q * (2 : ℚ) ^ ((52 : ℤ) - floorLog2 q)) : ℤ) : ℚ) := by
    exact_mod_cast hr
  exact mul_pos h1 (two_zpow_pos _)

/-- Half-ulp absolute error bound for correct rounding. -/
lemma roundDouble_err (q : ℚ) (hq : 0 < q) :
    |roundDouble q - q| ≤ (2 : ℚ) ^ (floorLog2 q - 53) := by
  have h2ne : (2 : ℚ) ≠ 0 := by norm_num
  unfold roundDouble
  rw [if_neg (not_le.mpr hq)]
  have hqid : ((rne (q * (2 : ℚ) ^ ((52 : ℤ) - floorLog2 q)) : ℤ) : ℚ)
        * (2 : ℚ) ^ (floorLog2 q - (52 : ℤ)) - q
      = (((rne (q * (2 : ℚ) ^ ((52 : ℤ) - floorLog2 q)) : ℤ) : ℚ)
          - q * (2 : ℚ) ^ ((52 : ℤ) - floorLog2 q)) * (2 : ℚ) ^ (floorLog2 q - (52 : ℤ)) := by
    have hid : q * (2 : ℚ) ^ ((52 : ℤ) - floorLog2 q) * (2 : ℚ) ^ (floorLog2 q - (52 : ℤ)) = q := by
      rw [mul_assoc, ← zpow_add₀ h2ne]
      have : (52 : ℤ) - floorLog2 q + (floorLog2 q - 52) = 0 := by ring
      rw [this]
      norm_num
    rw [sub_mul, hid]
  rw [hqid, abs_mul, abs_of_pos (two_zpow_pos _)]
  calc |((rne (q * (2 : ℚ) ^ ((52 : ℤ) - floorLog2 q)) : ℤ) : ℚ)
          - q * (2 : ℚ) ^ ((52 : ℤ) - floorLog2 q)| * (2 : ℚ) ^ (floorLog2 q - (52 : ℤ))
      ≤ (1 / 2) * (2 : ℚ) ^ (floorLog2 q - (52 : ℤ)) := by
        exact mul_le_mul_of_nonneg_right (abs_rne_sub_le _) (le_of_lt (two_zpow_pos _))
  _ = (2 : ℚ) ^ (floorLog2 q - 53) := by
        have h12 : (1 : ℚ) / 2 = (2 : ℚ) ^ (-1 : ℤ) := by norm_num
        rw [h12, ← zpow_add₀ h2ne]
        congr 1
        ring

/-- Relative error bound: correct rounding changes a positive value by at most
`2⁻⁵³` of itself. -/
lemma roundDouble_err_rel (q : ℚ) (hq : 0 < q) :
    |roundDouble q - q| ≤ q * (2 : ℚ) ^ (-53 : ℤ) := by
  have h2ne : (2 : ℚ) ≠ 0 := by norm_num
  calc |roundDouble q - q| ≤ (2 : ℚ) ^ (floorLog2 q - 53) := roundDouble_err q hq
  _ = (2 : ℚ) ^ floorLog2 q * (2 : ℚ) ^ (-53 : ℤ) := by
      have he : floorLog2 q - 53 = floorLog2 q + (-53 : ℤ) := by ring
      rw [he, zpow_add₀ h2ne]
  _ ≤ q * (2 : ℚ) ^ (-53 : ℤ) := by
      exact mul_le_mul_of_nonneg_right (floorLog2_spec q hq).1 (le_of_lt (two_zpow_pos _))

/-- Correct rounding is monotone. -/
lemma roundDouble_mono {q₁ q₂ : ℚ} (h : q₁ ≤ q₂) :
    roundDouble q₁ ≤ roundDouble q₂ := by
  by_cases h1 : q₁ ≤ 0
  · rw [show roundDouble q₁ = 0 from by unfold roundDouble; rw [if_pos h1]]
    exact roundDouble_nonneg q₂
  · have hq1 : 0 < q₁ := lt_of_not_le h1
    have hq2 : 0 < q₂ := lt_of_lt_of_le hq1 h
    have h2ne : (2 : ℚ) ≠ 0 := by norm_num
    have hee : floorLog2 q₁ ≤ floorLog2 q₂ := by
      by_contra hcon
      have hgt : floorLog2 q₂ < floorLog2 q₁ := lt_of_not_le hcon
      have hlt : q₂ < (2 : ℚ) ^ (floorLog2 q₂ + 1) := (floorLog2_spec q₂ hq2).2
      have hge : (2 : ℚ) ^ floorLog2 q₁ ≤ q₁ := (floorLog2_spec q₁ hq1).1
      have hstep : (2 : ℚ) ^ (floorLog2 q₂ + 1) ≤ (2 : ℚ) ^ floorLog2 q₁ :=
        zpow_le_zpow_right₀ (by norm_num) (by omega)
      linarith
    unfold roundDouble
    rw [if_neg (not_le.mpr hq1), if_neg (not_le.mpr hq2)]
    rcases eq_or_lt_of_le hee with heq | hlt
    · -- same binade: scaled values compare, `rne` is monotone
      rw [← heq]
      have hscale : q₁ * (2 : ℚ) ^ ((52 : ℤ) - floorLog2 q₁)
          ≤ q₂ * (2 : ℚ) ^ ((52 : ℤ) - floorLog2 q₁) :=
        mul_le_mul_of_nonneg_right h (le_of_lt (two_zpow_pos _))
      have hr : rne (q₁ * (2 : ℚ) ^ ((52 : ℤ) - floorLog2 q₁))
          ≤ rne (q₂ * (2 : ℚ) ^ ((52 : ℤ) - floorLog2 q₁)) := rne_mono hscale
      have hr' : ((rne (q₁ * (2 : ℚ) ^ ((52 : ℤ) - floorLog2 q₁)) : ℤ) : ℚ)
          ≤ ((rne (q₂ * (2 : ℚ) ^ ((52 : ℤ) - floorLog2 q₁)) : ℤ) : ℚ) := by
        exact_mod_cast hr
      exact mul_le_mul_of_nonneg_right hr' (le_of_lt (two_zpow_pos _))
    · -- `q₁`'s binade ends at `2^(e₁+1) ≤ 2^e₂ ≤ roundDouble q₂`
      have hub : ((rne (q₁ * (2 : ℚ) ^ ((52 : ℤ) - floorLog2 q₁)) : ℤ) : ℚ)
          ≤ (2 : ℚ) ^ (53 : ℤ) := by
        have hlt53 : q₁ * (2 : ℚ) ^ ((52 : ℤ) - floorLog2 q₁) < (2 : ℚ) ^ (53 : ℤ) :=
          (scaled_bounds q₁ hq1).2
        have hfl53 : ⌊q₁ * (2 : ℚ) ^ ((52 : ℤ) - floorLog2 q₁)⌋ < (2 : ℤ) ^ (53 : ℕ) := by
          apply Int.floor_lt.mpr
          calc q₁ * (2 : ℚ) ^ ((52 : ℤ) - floorLog2 q₁) < (2 : ℚ) ^ (53 : ℤ) := hlt53
          _ = (((2 : ℤ) ^ (53 : ℕ) : ℤ) : ℚ) := by norm_num
        have hrle : rne (q₁ * (2 : ℚ) ^ ((52 : ℤ) - floorLog2 q₁)) ≤ (2 : ℤ) ^ (53 : ℕ) := by
          have := rne_le_floor_add_one (q₁ * (2 : ℚ) ^ ((52 : ℤ) - floorLog2 q₁))
          omega
        calc ((rne (q₁ * (2 : ℚ) ^ ((52 : ℤ) - floorLog2 q₁)) : ℤ) : ℚ)
            ≤ (((2 : ℤ) ^ (53 : ℕ) : ℤ) : ℚ) := by exact_mod_cast hrle
        _ = (2 : ℚ) ^ (53 : ℤ) := by norm_num
      have hlb : (2 : ℚ) ^ (52 : ℤ)
          ≤ ((rne (q₂ * (2 : ℚ) ^ ((52 : ℤ) - floorLog2 q₂)) : ℤ) : ℚ) := by
        have hge52 : (2 : ℚ) ^ (52 : ℤ) ≤ q₂ * (2 : ℚ) ^ ((52 : ℤ) - floorLog2 q₂) :=
          (scaled_bounds q₂ hq2).1
        have hfl52 : ((2 : ℤ) ^ (52 : ℕ) : ℤ) ≤ ⌊q₂ * (2 : ℚ) ^ ((52 : ℤ) - floorLog2 q₂)⌋ := by
          apply Int.le_floor.mpr
          calc (((2 : ℤ) ^ (52 : ℕ) : ℤ) : ℚ) = (2 : ℚ) ^ (52 : ℤ) := by norm_num
          _ ≤ _ := hge52
        have hrge : ((2 : ℤ) ^ (52 : ℕ) : ℤ) ≤ rne (q₂ * (2 : ℚ) ^ ((52 : ℤ) - floorLog2 q₂)) :=
          le_trans hfl52 (floor_le_rne _)
        calc (2 : ℚ) ^ (52 : ℤ) = (((2 : ℤ) ^ (52 : ℕ) : ℤ) : ℚ) := by norm_num
        _ ≤ _ := by exact_mod_cast hrge
      calc ((rne (q₁ * (2 : ℚ) ^ ((52 : ℤ) - floorLog2 q₁)) : ℤ) : ℚ)
            * (2 : ℚ) ^ (floorLog2 q₁ - (52 : ℤ))
          ≤ (2 : ℚ) ^ (53 : ℤ) * (2 : ℚ) ^ (floorLog2 q₁ - (52 : ℤ)) :=
            mul_le_mul_of_nonneg_right hub (le_of_lt (two_zpow_pos _))
      _ = (2 : ℚ) ^ (floorLog2 q₁ + 1) := by
            rw [← zpow_add₀ h2ne]
            congr 1
            ring
      _ ≤ (2 : ℚ) ^ floorLog2 q₂ := zpow_le_zpow_right₀ (by norm_num) (by omega)
      _ = (2 : ℚ) ^ (52 : ℤ) * (2 : ℚ) ^ (floorLog2 q₂ - (52 : ℤ)) := by
            rw [← zpow_add₀ h2ne]
            congr 1
            ring
      _ ≤ ((rne (q₂ * (2 : ℚ) ^ ((52 : ℤ) - floorLog2 q₂)) : ℤ) : ℚ)
            * (2 : ℚ) ^ (floorLog2 q₂ - (52 : ℤ)) :=
            mul_le_mul_of_nonneg_right hlb (le_of_lt (two_zpow_pos _))

/-! ## `compute_equal_steps` (`custom.py` lines 23-27) -/

/-- Shallow embedding of

```python
def compute_equal_steps(iterable):
    if not iterable:
        return []
    return [idx * (100.0 / len(iterable))
            for idx, _ in enumerate(iterable, start=1)]
```

in exact IEEE-754 double arithmetic (both the division `100.0 / len` and the
multiplication `idx * _` are correctly rounded; the int-to-double conversions
of `idx` and `len` are exact for realistic list lengths). -/
def computeEqualSteps {α : Type} (l : List α) : List ℚ :=
  if l.isEmpty then []
  else (List.range l.length).map fun i : ℕ => fmul ((i : ℚ) + 1) (fdiv 100 (l.length : ℚ))

lemma computeEqualSteps_eq_map {α : Type} (l : List α) :
    computeEqualSteps l
      = (List.range l.length).map fun i : ℕ => fmul ((i : ℚ) + 1) (fdiv 100 (l.length : ℚ)) := by
  unfold computeEqualSteps
  split
  · have h : l.isEmpty = true := by assumption
    rw [List.isEmpty_iff.mp h]
    rfl
  · rfl

lemma computeEqualSteps_length {α : Type} (l : List α) :
    (computeEqualSteps l).length = l.length := by
  rw [computeEqualSteps_eq_map, List.length_map, List.length_range]

lemma computeEqualSteps_get {α : Type} (l : List α) (i : ℕ)
    (hi : i < (computeEqualSteps l).length) :
    (computeEqualSteps l).get ⟨i, hi⟩
      = fmul ((i : ℚ) + 1) (fdiv 100 (l.length : ℚ)) := by
  have hi' : i < l.length := by
    rw [← computeEqualSteps_length l]
    exact hi
  simp [computeEqualSteps_eq_map, List.get_eq_getElem]

lemma computeEqualSteps_mono {α : Type} (l : List α) (i j : ℕ)
    (hi : i < (computeEqualSteps l).length) (hj : j < (computeEqualSteps l).length)
    (hij : i ≤ j) :
    (computeEqualSteps l).get ⟨i, hi⟩ ≤ (computeEqualSteps l).get ⟨j, hj⟩ := by
  rw [computeEqualSteps_get, computeEqualSteps_get]
  apply roundDouble_mono
  have hc : 0 ≤ fdiv 100 (l.length : ℚ) := roundDouble_nonneg _
  apply mul_le_mul_of_nonneg_right _ hc
  have : (i : ℚ) ≤ (j : ℚ) := by exact_mod_cast hij
  linarith

lemma computeEqualSteps_getLast? {α : Type} (l : List α) (hl : l ≠ []) :
    (computeEqualSteps l).getLast?
      = some (fmul (l.length : ℚ) (fdiv 100 (l.length : ℚ))) := by
  rw [computeEqualSteps_eq_map]
  obtain ⟨n, hn⟩ : ∃ n, l.length = n + 1 := by
    cases l with
    | nil => exact absurd rfl hl
    | cons a t => exact ⟨t.length, rfl⟩
  rw [hn, List.range_succ, List.map_append]
  simp

/-- With at least one work item, the final step `n ⊛ (100 ⊘ n)` is within
`2⁻⁴⁵` of `100` (the two correctly rounded operations each contribute at most
a `2⁻⁵³` relative error).  It need not equal `100` exactly. -/
lemma lastStep_close (n : ℕ) (hn : 1 ≤ n) :
    |fmul (n : ℚ) (fdiv 100 (n : ℚ)) - 100| ≤ (2 : ℚ) ^ (-45 : ℤ) := by
  have hnq : (0 : ℚ) < (n : ℚ) := by exact_mod_cast hn
  have hnne : (n : ℚ) ≠ 0 := ne_of_gt hnq
  have hdivpos : (0 : ℚ) < 100 / (n : ℚ) := by positivity
  have hupos : (0 : ℚ) < (2 : ℚ) ^ (-53 : ℤ) := two_zpow_pos _
  have hc : |fdiv 100 (n : ℚ) - 100 / (n : ℚ)| ≤ 100 / (n : ℚ) * (2 : ℚ) ^ (-53 : ℤ) := by
    simp only [fdiv]
    exact roundDouble_err_rel _ hdivpos
  have hcpos : 0 < fdiv 100 (n : ℚ) := by
    simp only [fdiv]
    exact roundDouble_pos hdivpos
  have hmulc : |(n : ℚ) * fdiv 100 (n : ℚ) - 100| ≤ 100 * (2 : ℚ) ^ (-53 : ℤ) := by
    have hid : (n : ℚ) * fdiv 100 (n : ℚ) - 100
        = (n : ℚ) * (fdiv 100 (n : ℚ) - 100 / (n : ℚ)) := by
      field_simp
      ring
    rw [hid, abs_mul, abs_of_pos hnq]
    calc (n : ℚ) * |fdiv 100 (n : ℚ) - 100 / (n : ℚ)|
        ≤ (n : ℚ) * (100 / (n : ℚ) * (2 : ℚ) ^ (-53 : ℤ)) :=
          mul_le_mul_of_nonneg_left hc (le_of_lt hnq)
    _ = 100 * (2 : ℚ) ^ (-53 : ℤ) := by
          field_simp
          ring
  have hu : (2 : ℚ) ^ (-53 : ℤ) = 1 / 9007199254740992 := by norm_num
  have h45 : (2 : ℚ) ^ (-45 : ℤ) = 1 / 35184372088832 := by norm_num
  rw [hu] at hmulc
  have hnc101 : (n : ℚ) * fdiv 100 (n : ℚ) ≤ 101 := by
    have := (abs_le.mp hmulc).2
    linarith
  have hncpos : 0 < (n : ℚ) * fdiv 100 (n : ℚ) := mul_pos hnq hcpos
  have hf : |fmul (n : ℚ) (fdiv 100 (n : ℚ)) - (n : ℚ) * fdiv 100 (n : ℚ)|
      ≤ ((n : ℚ) * fdiv 100 (n : ℚ)) * (1 / 9007199254740992) := by
    simp only [fmul]
    have h0 := roundDouble_err_rel _ hncpos
    rw [hu] at h0
    exact h0
  have hf101 : |fmul (n : ℚ) (fdiv 100 (n : ℚ)) - (n : ℚ) * fdiv 100 (n : ℚ)|
      ≤ 101 * (1 / 9007199254740992) := by
    calc |fmul (n : ℚ) (fdiv 100 (n : ℚ)) - (n : ℚ) * fdiv 100 (n : ℚ)|
        ≤ ((n : ℚ) * fdiv 100 (n : ℚ)) * (1 / 9007199254740992) := hf
    _ ≤ 101 * (1 / 9007199254740992) :=
        mul_le_mul_of_nonneg_right hnc101 (by norm_num)
  have htri : |fmul (n : ℚ) (fdiv 100 (n : ℚ)) - 100|
      ≤ |fmul (n : ℚ) (fdiv 100 (n : ℚ)) - (n : ℚ) * fdiv 100 (n : ℚ)|
        + |(n : ℚ) * fdiv 100 (n : ℚ) - 100| := abs_sub_le _ _ _
  rw [h45]
  linarith


/-! ## Strings and portage helpers -/

/-- Lower-cased character list of a string (for `re.IGNORECASE` matching). -/
def lcs (s : String) : List Char := s.data.map Char.toLower

def isPrefixB : List Char → List Char → Bool
  | [], _ => true
  | _ :: _, [] => false
  | a :: as, b :: bs => a == b && isPrefixB as bs

def isInfixB (p : List Char) : List Char → Bool
  | [] => isPrefixB p []
  | c :: t => isPrefixB p (c :: t) || isInfixB p t

def isSuffixB (p s : List Char) : Bool := isPrefixB p.reverse s.reverse

/-- `re.compile(re.escape(k), re.IGNORECASE).search(v)`: the escaped pattern is
a literal, so this is a case-insensitive substring test. -/
def ciSub (pat v : String) : Bool := isInfixB (lcs pat) (lcs v)

/-- `re.compile("/" + re.escape(key) + "$", re.IGNORECASE).search(f)`: `f` ends
with `"/" + key`, case-insensitively. -/
def ciSlashSuffix (pat f : String) : Bool := isSuffixB ('/' :: lcs pat) (lcs f)

/-- Split a character list at its first `'/'`. -/
def splitSlash : List Char → Option (List Char × List Char)
  | [] => none
  | c :: t =>
    if c = '/' then some ([], t)
    else
      match splitSlash t with
      | some (a, b) => some (c :: a, b)
      | none => none

/-- `"/" in k`. -/
def hasSlash (s : String) : Bool := (splitSlash s.data).isSome

/-- First component of portage `catsplit` (`s.split("/", 1)`).  Group strings
coming from the database are well-formed `category/name` (spec §4.2: malformed
identity strings are out of scope), so the no-slash fallback is irrelevant. -/
def catOf (s : String) : String :=
  match splitSlash s.data with
  | some (a, _) => String.mk a
  | none => ""

/-- Second component of portage `catsplit`. -/
def nameOf (s : String) : String :=
  match splitSlash s.data with
  | some (_, b) => String.mk b
  | none => s

/-! ## Data model -/

inductive PkFilter
  | installed
  | notInstalled
  | newest
  | free
  deriving DecidableEq, Repr

inductive Info
  | installed
  | available
  deriving DecidableEq, Repr

/-- One call on the reporting collaborator. -/
inductive Event
  | status (s : String)
  | allowCancel (b : Bool)
  | percentage (q : ℚ)
  | package (id : String) (info : Info) (desc : String)
  | error (kind : String) (msg : String)
  deriving DecidableEq, Repr

/-- An uncaught Python exception escaping a driver. -/
inductive PyExn
  | typeError (msg : String)
  | indexError (msg : String)
  deriving DecidableEq, Repr

/-- The read interface the backend consumes: the portage database views plus
the repository helpers that are not under `src/`. -/
structure Db where
  /-- `self.pvar.vardb.cp_all()`: installed `category/name` groups. -/
  vardbCpAll : List String
  /-- `self.pvar.portdb.cp_all()`: all repository `category/name` groups. -/
  portdbCpAll : List String
  /-- `portage.db[portage.root]["porttree"].dbapi.match cp`. -/
  porttreeMatch : String → List String
  /-- `portage.db[portage.root]["vartree"].dbapi.match cpv`. -/
  vartreeMatch : String → List String
  /-- `aux_get cpv fields`; `none` models a raised lookup exception. -/
  auxGet : String → List String → Option (List String)
  /-- `self.pvar.vardb.cpv_all()`: installed versions. -/
  vardbCpvAll : List String
  /-- Modelled from the spec: `_get_file_list` is repository code not under
  `src/`; it lists the installed file paths of an installed version (§4.4). -/
  fileList : String → List String
  /-- Modelled from the spec: `_get_pk_group` is repository code not under
  `src/`; it is the group-classification label of a `category/name` (§4.4). -/
  pkGroup : String → String
  /-- Modelled from the spec: `_get_real_license_str` is repository code not
  under `src/`; it resolves a version's LICENSE to its fully-resolved
  license-expression string (§4.4). -/
  realLicense : String → String
  /-- Modelled from the spec: `_filter_free` is repository code not under
  `src/` and the spec does not constrain it; it is kept abstract. -/
  filterFree : List String → List PkFilter → List String
  /-- `portage.cpv_getkey cpv` (external portage). -/
  cpvGetkey : String → String
  /-- `portage.versions.cpv_getversion cpv` (external portage). -/
  cpvGetversion : String → String
  /-- `portage.settings.get("ARCH", "amd64")`. -/
  arch : String

/-- Modelled from the spec: `PackagekitProgress` (packagekit.progress, not
under `src/`) wraps the checkpoint list; its initial `percent` is 0 and
iterating it yields the checkpoints in order (§4.1). -/
def progressInitialPercent : ℚ := 0

/-- Modelled from the spec: `_get_search_list` is repository code not under
`src/`; per §3 it compiles each term into a case-insensitive literal matcher,
so a compiled predicate is represented by its term, matched with `ciSub`. -/
def getSearchList (keys : List String) : List String := keys

/-! ## Backend helpers (`custom.py`) -/

/-- `_get_all_cp` (lines 33-47).  The no-filter branch appends each repository
group not already present to the growing list, so it deduplicates against
both the installed groups and previously appended repository groups. -/
def getAllCp (db : Db) (filters : List PkFilter) : List String :=
  if PkFilter.installed ∈ filters then db.vardbCpAll
  else if PkFilter.notInstalled ∈ filters then db.portdbCpAll
  else db.portdbCpAll.foldl (fun acc cp => if cp ∈ acc then acc else acc ++ [cp]) db.vardbCpAll

/-- `_get_all_cpv` (lines 49-50): ignores its `filters` argument and always
queries the full repository tree. -/
def getAllCpv (db : Db) (cp : String) (filters : List PkFilter) : List String :=
  db.porttreeMatch cp

/-- `_get_metadata` (lines 52-56): any lookup failure degrades to one empty
string per requested field. -/
def getMetadata (db : Db) (cpv : String) (fields : List String) : List String :=
  match db.auxGet cpv fields with
  | some vals => vals
  | none => fields.map fun _ => ""

/-- `_is_installed` (lines 58-59). -/
def isInstalledCpv (db : Db) (cpv : String) : Bool := !(db.vartreeMatch cpv).isEmpty

/-- `_cpv_to_id` (lines 61-67) followed by `get_package_id` (packagekit
library; spec §4.2: an opaque identifier incorporating name, version,
architecture and the hardcoded repository label). -/
def cpvToId (db : Db) (cpv : String) : String :=
  nameOf (db.cpvGetkey cpv) ++ ";" ++ db.cpvGetversion cpv ++ ";" ++ db.arch ++ ";" ++ "gentoo"

/-- `_package` (lines 69-76) on the default `info=None` path: the description
is the first `_get_metadata` value and the info classification is recomputed
from the installed view. -/
def packageEv (db : Db) (cpv : String) : Event :=
  Event.package (cpvToId db cpv)
    (if isInstalledCpv db cpv then Info.installed else Info.available)
    ((getMetadata db cpv ["DESCRIPTION"]).getD 0 "")

/-! ## Event extraction -/

def pctOf (evs : List Event) : List ℚ :=
  evs.filterMap fun e =>
    match e with
    | Event.percentage q => some q
    | _ => none

def pkgsOf (evs : List Event) : List Event :=
  evs.filter fun e =>
    match e with
    | Event.package _ _ _ => true
    | _ => false

def errsOf (evs : List Event) : List Event :=
  evs.filter fun e =>
    match e with
    | Event.error _ _ => true
    | _ => false

/-! ## `search_details` (lines 85-118) -/

def detailsFieldNames : List String :=
  ["DESCRIPTION", "HOMEPAGE", "IUSE", "LICENSE", "repository", "SLOT", "EAPI", "KEYWORDS"]

/-- The eight field values fetched for a version by `search_details` (lines
92-97), with the LICENSE entry (position 3) replaced by the resolved license
string (line 97). -/
def detailsFields (db : Db) (cpv : String) : List String :=
  let m := getMetadata db cpv detailsFieldNames
  m.take 3 ++ [db.realLicense cpv] ++ m.drop 4

/-- The per-version match loop of `search_details` (lines 98-106): a version
matches iff EVERY compiled predicate finds AT LEAST ONE field value
(short-circuiting only affects timing, not the result). -/
def detailsMatch (searchList : List String) (fields : List String) : Bool :=
  searchList.all fun s => fields.any fun v => ciSub s v

/-- `search_details` (lines 85-118).  The loop body's first call,
`self._get_all_cpv(cp, filters, filter_newest=False)` (line 91), passes a
keyword argument that `_get_all_cpv` (line 49) does not accept, so the first
iteration raises `TypeError` before any matching happens
(`_get_metadata(..., in_dict=True)` on lines 93-96 has the same defect); with
a nonempty candidate list the driver aborts right after the initial
percentage, and with an empty candidate list it completes normally. -/
def searchDetails (db : Db) (filters : List PkFilter) (keys : List String) :
    List Event × Option PyExn :=
  let cpList := getAllCp db filters
  if cpList.isEmpty then
    ([Event.status "QUERY", Event.allowCancel true,
      Event.percentage progressInitialPercent, Event.percentage 100], none)
  else
    ([Event.status "QUERY", Event.allowCancel true,
      Event.percentage progressInitialPercent],
     some (PyExn.typeError "_get_all_cpv() got an unexpected keyword argument filter_newest"))

/-! ## `search_group` (lines 156-173) -/

/-- One iteration of the `search_group` candidate loop: for each requested
label equal to the group's classification, emit every version of the group,
then report the checkpoint. -/
def groupIter (db : Db) (filters : List PkFilter) (groups : List String)
    (pc : ℚ × String) : List Event :=
  (groups.flatMap fun g =>
    if db.pkGroup pc.2 == g then (getAllCpv db pc.2 filters).map (packageEv db) else [])
  ++ [Event.percentage pc.1]

/-- `search_group` (lines 156-173). -/
def searchGroup (db : Db) (filters : List PkFilter) (groups : List String) :
    List Event × Option PyExn :=
  let cpList := getAllCp db filters
  ([Event.status "QUERY", Event.allowCancel true,
    Event.percentage progressInitialPercent]
    ++ ((computeEqualSteps cpList).zip cpList).flatMap (groupIter db filters groups)
    ++ [Event.percentage 100], none)

/-! ## `search_name` (lines 175-221) -/

/-- The category prefixes collected from the terms (lines 179-184): one entry
per category-qualified term, occurrences included. -/
def nameCategories (keys : List String) : List String :=
  keys.filterMap fun k => if hasSlash k then some (catOf k) else none

/-- The term list after stripping category prefixes (line 183).  On the
reachable paths (at most one category-qualified term, see lines 186-187) the
`keys_list.index(k)` assignment is exactly this per-term replacement. -/
def nameStrip (keys : List String) : List String :=
  keys.map fun k => if hasSlash k then nameOf k else k

/-- The `if category_filter:` test of line 200 under Python truthiness: both
`None` (no category term) and the empty string are falsy. -/
def nameActiveFilter (keys : List String) : Option String :=
  match nameCategories keys with
  | [c] => if c = "" then none else some c
  | _ => none

/-- Whether the candidate group survives the category filter (lines 200-203). -/
def nameConsider (active : Option String) (cp : String) : Bool :=
  match active with
  | some c => catOf cp == c
  | none => true

/-- One iteration of the `search_name` candidate loop (lines 199-219).  A
group rejected by the category filter hits `continue` (line 203), which skips
the checkpoint report at line 217 as well. -/
def nameIter (db : Db) (filters : List PkFilter) (active : Option String)
    (preds : List String) (pc : ℚ × String) : List Event :=
  if nameConsider active pc.2 then
    (if preds.all fun p => ciSub p (nameOf pc.2) then
      (getAllCpv db pc.2 filters).map (packageEv db)
    else [])
    ++ [Event.percentage pc.1]
  else []

/-- `search_name` (lines 175-221).  With more than one category-qualified term
(`len(categories) > 1`, occurrences not distinct categories) the driver
returns at line 187 before any progress reporting. -/
def searchName (db : Db) (filters : List PkFilter) (keysList : List String) :
    List Event × Option PyExn :=
  if 1 < (nameCategories keysList).length then
    ([Event.status "QUERY", Event.allowCancel true], none)
  else
    let active := nameActiveFilter keysList
    let preds := nameStrip keysList
    let cpList := getAllCp db filters
    ([Event.status "QUERY", Event.allowCancel true,
      Event.percentage progressInitialPercent]
      ++ ((computeEqualSteps cpList).zip cpList).flatMap (nameIter db filters active preds)
      ++ [Event.percentage 100], none)

/-! ## `search_file` (lines 120-154) -/

/-- The matching state carried across the term loop of `search_file`:
`is_full_path` (initially `True`, line 129) and the term behind the most
recently compiled `searchre` (lines 137-140).  Neither is reset when a later
term starts with `"/"`. -/
structure FileSt where
  fullPath : Bool
  pat : Option String
  deriving DecidableEq, Repr

/-- Lines 137-140: a term not starting with `"/"` clears `is_full_path` and
recompiles `searchre`; a term starting with `"/"` leaves both unchanged. -/
def fileStep (st : FileSt) (key : String) : FileSt :=
  if key.data.head? = some '/' then st else ⟨false, some key⟩

/-- The per-file test of lines 147-148, evaluated in the stepped state:
`(is_full_path and key == f) or (not is_full_path and searchre.search(f))`. -/
def fileMatch (st : FileSt) (key f : String) : Bool :=
  (st.fullPath && key == f)
    || (!st.fullPath &&
        match st.pat with
        | some p => ciSlashSuffix p f
        | none => false)

/-- The term loop of `search_file` (lines 135-152).  `key[0]` on an empty term
raises `IndexError` (line 137), aborting the scan without the final 100; the
`cpv_list = self._filter_free(...)` reassignment (line 142) persists across
iterations; each version is emitted at most once per term (`break`,
line 150). -/
def fileLoop (db : Db) (filters : List PkFilter) :
    FileSt → List String → List (ℚ × String) → List Event × Option PyExn
  | _, _, [] => ([Event.percentage 100], none)
  | st, cpvs, pc :: rest =>
    if pc.2 = "" then
      ([], some (PyExn.indexError "string index out of range"))
    else
      let st' := fileStep st pc.2
      let cpvs' := db.filterFree cpvs filters
      let emits := cpvs'.filterMap fun cpv =>
        if (db.fileList cpv).any fun f => fileMatch st' pc.2 f then some (packageEv db cpv)
        else none
      let tail := fileLoop db filters st' cpvs' rest
      (emits ++ [Event.percentage pc.1] ++ tail.1, tail.2)

/-- `search_file` (lines 120-154): the NOT_INSTALLED filter is rejected up
front with a structured error (lines 124-127) before any enumeration. -/
def searchFile (db : Db) (filters : List PkFilter) (values : List String) :
    List Event × Option PyExn :=
  if PkFilter.notInstalled ∈ filters then
    ([Event.status "QUERY", Event.allowCancel true,
      Event.error "CANNOT_GET_FILELIST" "search-file is not available with ~installed filter"],
     none)
  else
    let pairs := (computeEqualSteps values).zip values
    let tail := fileLoop db filters ⟨true, none⟩ db.vardbCpvAll pairs
    ([Event.status "QUERY", Event.allowCancel true,
      Event.percentage progressInitialPercent] ++ tail.1, tail.2)


/-! ## Trace-shape lemmas -/

lemma pctOf_append (a b : List Event) : pctOf (a ++ b) = pctOf a ++ pctOf b := by
  simp [pctOf]

lemma pkgsOf_append (a b : List Event) : pkgsOf (a ++ b) = pkgsOf a ++ pkgsOf b := by
  simp [pkgsOf]

lemma pctOf_eq_nil_of_pkgs (evs : List Event)
    (h : ∀ e ∈ evs, ∃ i inf d, e = Event.package i inf d) : pctOf evs = [] := by
  induction evs with
  | nil => rfl
  | cons e t ih =>
    obtain ⟨i, inf, d, he⟩ := h e (List.mem_cons_self e t)
    subst he
    simp only [pctOf, List.filterMap_cons]
    exact ih fun x hx => h x (List.mem_cons_of_mem _ hx)

lemma pkgsOf_eq_self_of_pkgs (evs : List Event)
    (h : ∀ e ∈ evs, ∃ i inf d, e = Event.package i inf d) : pkgsOf evs = evs := by
  apply List.filter_eq_self.mpr
  intro e he
  obtain ⟨i, inf, d, he'⟩ := h e he
  subst he'
  rfl

lemma packageEv_is_pkg (db : Db) (cpv : String) :
    ∃ i inf d, packageEv db cpv = Event.package i inf d :=
  ⟨_, _, _, rfl⟩

lemma groupEmits_pkgs (db : Db) (filters : List PkFilter) (groups : List String)
    (cp : String) (e : Event)
    (he : e ∈ groups.flatMap fun g =>
      if db.pkGroup cp == g then (getAllCpv db cp filters).map (packageEv db) else []) :
    ∃ i inf d, e = Event.package i inf d := by
  obtain ⟨g, _, hmem⟩ := List.mem_flatMap.mp he
  by_cases hg : db.pkGroup cp == g
  · rw [if_pos hg] at hmem
    obtain ⟨cpv, _, hcpv⟩ := List.mem_map.mp hmem
    rw [← hcpv]
    exact packageEv_is_pkg db cpv
  · rw [if_neg hg] at hmem
    exact absurd hmem (List.not_mem_nil e)

lemma pctOf_groupIter (db : Db) (filters : List PkFilter) (groups : List String)
    (pc : ℚ × String) : pctOf (groupIter db filters groups pc) = [pc.1] := by
  unfold groupIter
  rw [pctOf_append, pctOf_eq_nil_of_pkgs _ (groupEmits_pkgs db filters groups pc.2)]
  rfl

lemma pctOf_flatMap (f : ℚ × String → List Event) (pairs : List (ℚ × String))
    (hf : ∀ pc, pctOf (f pc) = [pc.1]) :
    pctOf (pairs.flatMap f) = pairs.map Prod.fst := by
  induction pairs with
  | nil => rfl
  | cons p t ih =>
    rw [List.flatMap_cons, pctOf_append, hf, List.map_cons, ih]
    rfl

lemma pctOf_flatMap_opt (f : ℚ × String → List Event) (g : ℚ × String → Bool)
    (pairs : List (ℚ × String))
    (hf : ∀ pc, pctOf (f pc) = if g pc then [pc.1] else []) :
    pctOf (pairs.flatMap f)
      = pairs.filterMap fun pc => if g pc then some pc.1 else none := by
  induction pairs with
  | nil => rfl
  | cons p t ih =>
    rw [List.flatMap_cons, pctOf_append, hf, List.filterMap_cons]
    by_cases hp : g p
    · rw [if_pos hp, if_pos hp, ih]
      rfl
    · rw [if_neg hp, if_neg hp, ih]
      rfl

lemma zip_steps_fst {α : Type} (l : List α) :
    ((computeEqualSteps l).zip l).map Prod.fst = computeEqualSteps l := by
  apply List.map_fst_zip
  rw [computeEqualSteps_length]

lemma zip_steps_snd {α : Type} (l : List α) :
    ((computeEqualSteps l).zip l).map Prod.snd = l := by
  apply List.map_snd_zip
  rw [computeEqualSteps_length]

/-- The percentage updates of `search_group`: initial 0, one checkpoint per
candidate group, final 100. -/
lemma searchGroup_pct (db : Db) (filters : List PkFilter) (groups : List String) :
    (searchGroup db filters groups).2 = none ∧
    pctOf (searchGroup db filters groups).1
      = 0 :: computeEqualSteps (getAllCp db filters) ++ [100] := by
  unfold searchGroup
  refine ⟨rfl, ?_⟩
  rw [pctOf_append, pctOf_append,
    pctOf_flatMap _ _ (pctOf_groupIter db filters groups), zip_steps_fst]
  rfl

lemma pctOf_nameIter (db : Db) (filters : List PkFilter) (active : Option String)
    (preds : List String) (pc : ℚ × String) :
    pctOf (nameIter db filters active preds pc)
      = if nameConsider active pc.2 then [pc.1] else [] := by
  unfold nameIter
  by_cases hc : nameConsider active pc.2
  · rw [if_pos hc, if_pos hc, pctOf_append]
    by_cases hm : preds.all fun p => ciSub p (nameOf pc.2)
    · rw [if_pos hm]
      rw [pctOf_eq_nil_of_pkgs]
      · rfl
      · intro e he
        obtain ⟨cpv, _, hcpv⟩ := List.mem_map.mp he
        rw [← hcpv]
        exact packageEv_is_pkg db cpv
    · rw [if_neg hm]
      rfl
  · rw [if_neg hc, if_neg hc]
    rfl

/-- The percentage updates of a `search_name` run that reaches its scan loop:
initial 0, one checkpoint per candidate group that passes the category
filter (rejected candidates hit `continue` and skip their checkpoint),
final 100. -/
lemma searchName_pct (db : Db) (filters : List PkFilter) (keys : List String)
    (h : (nameCategories keys).length ≤ 1) :
    (searchName db filters keys).2 = none ∧
    pctOf (searchName db filters keys).1
      = 0 :: ((computeEqualSteps (getAllCp db filters)).zip (getAllCp db filters)).filterMap
          (fun pc => if nameConsider (nameActiveFilter keys) pc.2 then some pc.1 else none)
        ++ [100] := by
  unfold searchName
  rw [if_neg (by omega)]
  refine ⟨rfl, ?_⟩
  rw [pctOf_append, pctOf_append,
    pctOf_flatMap_opt _ (fun pc => nameConsider (nameActiveFilter keys) pc.2) _
      (pctOf_nameIter db filters (nameActiveFilter keys) (nameStrip keys))]
  rfl

/-- A `search_name` run with more than one category-qualified term returns
before any progress reporting. -/
lemma searchName_ambiguous (db : Db) (filters : List PkFilter) (keys : List String)
    (h : 1 < (nameCategories keys).length) :
    (searchName db filters keys).1 = [Event.status "QUERY", Event.allowCancel true]
    ∧ (searchName db filters keys).2 = none := by
  unfold searchName
  rw [if_pos h]
  exact ⟨rfl, rfl⟩

lemma fileLoop_shape (db : Db) (filters : List PkFilter) :
    ∀ (pairs : List (ℚ × String)) (st : FileSt) (cpvs : List String),
      (∀ pc ∈ pairs, pc.2 ≠ "") →
      (fileLoop db filters st cpvs pairs).2 = none ∧
      pctOf (fileLoop db filters st cpvs pairs).1 = pairs.map Prod.fst ++ [100] := by
  intro pairs
  induction pairs with
  | nil =>
    intro st cpvs _
    exact ⟨rfl, rfl⟩
  | cons p t ih =>
    intro st cpvs h
    unfold fileLoop
    rw [if_neg (h p (List.mem_cons_self p t))]
    obtain ⟨ih1, ih2⟩ := ih (fileStep st p.2) (db.filterFree cpvs filters)
      fun pc hpc => h pc (List.mem_cons_of_mem _ hpc)
    refine ⟨ih1, ?_⟩
    rw [pctOf_append, pctOf_append, ih2, pctOf_eq_nil_of_pkgs]
    · rfl
    · intro e he
      obtain ⟨cpv, _, hcpv⟩ := List.mem_filterMap.mp he
      by_cases hm : (db.fileList cpv).any fun f => fileMatch (fileStep st p.2) p.2 f
      · rw [if_pos hm] at hcpv
        rw [← Option.some_inj.mp hcpv]
        exact packageEv_is_pkg db cpv
      · rw [if_neg hm] at hcpv
        cases hcpv

/-- The percentage updates of a `search_file` run without the rejected filter
and with nonempty terms: initial 0, one checkpoint per term, final 100. -/
lemma searchFile_pct (db : Db) (filters : List PkFilter) (values : List String)
    (h1 : PkFilter.notInstalled ∉ filters) (h2 : ∀ v ∈ values, v ≠ "") :
    (searchFile db filters values).2 = none ∧
    pctOf (searchFile db filters values).1 = 0 :: computeEqualSteps values ++ [100] := by
  unfold searchFile
  rw [if_neg h1]
  obtain ⟨hh1, hh2⟩ := fileLoop_shape db filters ((computeEqualSteps values).zip values)
    ⟨true, none⟩ db.vardbCpvAll
    (fun pc hpc => h2 pc.2 (List.mem_zip hpc).2)
  refine ⟨hh1, ?_⟩
  rw [pctOf_append, hh2, zip_steps_fst]
  rfl

/-- The `search_file` invalid-filter error path. -/
lemma searchFile_err (db : Db) (filters : List PkFilter) (values : List String)
    (h : PkFilter.notInstalled ∈ filters) :
    (searchFile db filters values).1
      = [Event.status "QUERY", Event.allowCancel true,
         Event.error "CANNOT_GET_FILELIST"
           "search-file is not available with ~installed filter"]
    ∧ (searchFile db filters values).2 = none := by
  unfold searchFile
  rw [if_pos h]
  exact ⟨rfl, rfl⟩

/-- The percentage updates of `search_details`: with no candidate group the
driver completes with `[0, 100]`; otherwise the first iteration raises
`TypeError` and only the initial 0 is emitted. -/
lemma searchDetails_pct (db : Db) (filters : List PkFilter) (keys : List String) :
    pctOf (searchDetails db filters keys).1
      = if (getAllCp db filters).isEmpty then [0, 100] else [0] := by
  simp only [searchDetails]
  by_cases h : (getAllCp db filters).isEmpty
  · simp only [if_pos h]
    rfl
  · simp only [if_neg h]
    rfl


/-! ## Package-emission shapes -/

/-- The versions emitted for one considered `search_name` candidate. -/
def nameEmits (db : Db) (filters : List PkFilter) (active : Option String)
    (preds : List String) (cp : String) : List Event :=
  if nameConsider active cp && (preds.all fun p => ciSub p (nameOf cp)) then
    (getAllCpv db cp filters).map (packageEv db)
  else []

/-- The versions emitted for one `search_group` candidate. -/
def groupEmits (db : Db) (filters : List PkFilter) (groups : List String)
    (cp : String) : List Event :=
  groups.flatMap fun g =>
    if db.pkGroup cp == g then (getAllCpv db cp filters).map (packageEv db) else []

lemma pkgsOf_flatMap (f : ℚ × String → List Event) (E : String → List Event)
    (pairs : List (ℚ × String)) (hf : ∀ pc, pkgsOf (f pc) = E pc.2) :
    pkgsOf (pairs.flatMap f) = pairs.flatMap fun pc => E pc.2 := by
  induction pairs with
  | nil => rfl
  | cons p t ih =>
    rw [List.flatMap_cons, pkgsOf_append, hf, List.flatMap_cons, ih]

lemma flatMap_zip_snd (steps : List ℚ) (l : List String) (E : String → List Event)
    (h : steps.length = l.length) :
    (steps.zip l).flatMap (fun pc => E pc.2) = l.flatMap E := by
  induction steps generalizing l with
  | nil =>
    cases l with
    | nil => rfl
    | cons c t => simp at h
  | cons a s ih =>
    cases l with
    | nil => simp at h
    | cons c t =>
      rw [List.zip_cons_cons, List.flatMap_cons, List.flatMap_cons, ih t]
      simpa using h

lemma pkgsOf_groupIter (db : Db) (filters : List PkFilter) (groups : List String)
    (pc : ℚ × String) :
    pkgsOf (groupIter db filters groups pc) = groupEmits db filters groups pc.2 := by
  unfold groupIter groupEmits
  rw [pkgsOf_append, pkgsOf_eq_self_of_pkgs _ (groupEmits_pkgs db filters groups pc.2)]
  simp [pkgsOf]

lemma pkgsOf_nameIter (db : Db) (filters : List PkFilter) (active : Option String)
    (preds : List String) (pc : ℚ × String) :
    pkgsOf (nameIter db filters active preds pc)
      = nameEmits db filters active preds pc.2 := by
  unfold nameIter nameEmits
  by_cases hc : nameConsider active pc.2
  · rw [if_pos hc, pkgsOf_append]
    by_cases hm : preds.all fun p => ciSub p (nameOf pc.2)
    · rw [if_pos hm, if_pos (by rw [hc, hm]; rfl)]
      rw [pkgsOf_eq_self_of_pkgs]
      · simp [pkgsOf]
      · intro e he
        obtain ⟨cpv, _, hcpv⟩ := List.mem_map.mp he
        rw [← hcpv]
        exact packageEv_is_pkg db cpv
    · rw [if_neg hm, if_neg (by simp [hm])]
      rfl
  · rw [if_neg hc, if_neg (by simp [hc])]
    rfl

/-- The packages emitted by `search_group` are exactly the per-candidate
emissions, in candidate order. -/
lemma searchGroup_pkgs (db : Db) (filters : List PkFilter) (groups : List String) :
    pkgsOf (searchGroup db filters groups).1
      = (getAllCp db filters).flatMap (groupEmits db filters groups) := by
  unfold searchGroup
  rw [pkgsOf_append, pkgsOf_append,
    pkgsOf_flatMap _ _ _ (pkgsOf_groupIter db filters groups),
    flatMap_zip_snd _ _ _ (computeEqualSteps_length _)]
  simp [pkgsOf]

/-- The packages emitted by a non-aborted `search_name` are exactly the
per-candidate emissions, in candidate order. -/
lemma searchName_pkgs (db : Db) (filters : List PkFilter) (keys : List String)
    (h : (nameCategories keys).length ≤ 1) :
    pkgsOf (searchName db filters keys).1
      = (getAllCp db filters).flatMap
          (nameEmits db filters (nameActiveFilter keys) (nameStrip keys)) := by
  unfold searchName
  rw [if_neg (by omega)]
  rw [pkgsOf_append, pkgsOf_append,
    pkgsOf_flatMap _ _ _ (pkgsOf_nameIter db filters (nameActiveFilter keys) (nameStrip keys)),
    flatMap_zip_snd _ _ _ (computeEqualSteps_length _)]
  simp [pkgsOf]

/-! ## `_get_all_cp` fold lemmas -/

lemma foldl_dedup_mem : ∀ (l acc : List String) (x : String),
    (x ∈ l.foldl (fun acc cp => if cp ∈ acc then acc else acc ++ [cp]) acc)
      ↔ x ∈ acc ∨ x ∈ l := by
  intro l
  induction l with
  | nil =>
    intro acc x
    simp
  | cons c t ih =>
    intro acc x
    rw [List.foldl_cons]
    by_cases hc : c ∈ acc
    · rw [if_pos hc, ih]
      constructor
      · rintro (hx | hx)
        · exact Or.inl hx
        · exact Or.inr (List.mem_cons_of_mem _ hx)
      · rintro (hx | hx)
        · exact Or.inl hx
        · rcases List.mem_cons.mp hx with rfl | hx
          · exact Or.inl hc
          · exact Or.inr hx
    · rw [if_neg hc, ih]
      constructor
      · rintro (hx | hx)
        · rcases List.mem_append.mp hx with hx | hx
          · exact Or.inl hx
          · exact Or.inr (List.mem_cons.mpr (Or.inl (List.mem_singleton.mp hx)))
        · exact Or.inr (List.mem_cons_of_mem _ hx)
      · rintro (hx | hx)
        · exact Or.inl (List.mem_append.mpr (Or.inl hx))
        · rcases List.mem_cons.mp hx with rfl | hx
          · exact Or.inl (List.mem_append.mpr (Or.inr (List.mem_singleton.mpr rfl)))
          · exact Or.inr hx

lemma foldl_dedup_split : ∀ (l acc : List String),
    ∃ rest, l.foldl (fun acc cp => if cp ∈ acc then acc else acc ++ [cp]) acc
        = acc ++ rest
      ∧ rest.Sublist l ∧ ∀ x ∈ rest, x ∉ acc := by
  intro l
  induction l with
  | nil =>
    intro acc
    exact ⟨[], by simp, List.Sublist.refl _, by simp⟩
  | cons c t ih =>
    intro acc
    rw [List.foldl_cons]
    by_cases hc : c ∈ acc
    · rw [if_pos hc]
      obtain ⟨rest, h1, h2, h3⟩ := ih acc
      exact ⟨rest, h1, h2.cons c, h3⟩
    · rw [if_neg hc]
      obtain ⟨rest, h1, h2, h3⟩ := ih (acc ++ [c])
      refine ⟨c :: rest, ?_, h2.cons₂ c, ?_⟩
      · rw [h1, List.append_assoc]
        rfl
      · intro x hx
        rcases List.mem_cons.mp hx with rfl | hx
        · exact hc
        · intro hxa
          exact h3 x hx (List.mem_append.mpr (Or.inl hxa))

lemma foldl_dedup_nodup : ∀ (l acc : List String), acc.Nodup →
    (l.foldl (fun acc cp => if cp ∈ acc then acc else acc ++ [cp]) acc).Nodup := by
  intro l
  induction l with
  | nil =>
    intro acc h
    simpa using h
  | cons c t ih =>
    intro acc h
    rw [List.foldl_cons]
    by_cases hc : c ∈ acc
    · rw [if_pos hc]
      exact ih acc h
    · rw [if_neg hc]
      apply ih
      apply List.Nodup.append h (List.nodup_singleton c)
      intro x hx hxc
      rw [List.mem_singleton.mp hxc] at hx
      exact hc hx

/-! ## Concrete test databases -/

/-- A degenerate database (basis for the concrete test databases). -/
def emptyDb : Db where
  vardbCpAll := []
  portdbCpAll := []
  porttreeMatch := fun _ => []
  vartreeMatch := fun _ => []
  auxGet := fun _ _ => none
  vardbCpvAll := []
  fileList := fun _ => []
  pkGroup := fun _ => ""
  realLicense := fun _ => ""
  filterFree := fun l _ => l
  cpvGetkey := fun _ => ""
  cpvGetversion := fun _ => ""
  arch := "amd64"

/-- One candidate group, so that `search_details` enters its loop. -/
def dbDetails : Db := { emptyDb with vardbCpAll := ["app-text/foo"] }

/-- Four repository groups in two categories (for the skipped-checkpoint
counterexample). -/
def dbSkip : Db :=
  { emptyDb with portdbCpAll := ["cat-a/pkga", "cat-b/pkgb", "cat-a/pkgc", "cat-a/pkgd"] }

/-- One group `gnome/gedit` with one version (for the name-search category
counterexample). -/
def dbGedit : Db :=
  { emptyDb with
    portdbCpAll := ["gnome/gedit"]
    porttreeMatch := fun cp => if cp = "gnome/gedit" then ["gnome/gedit-3.0"] else []
    cpvGetkey := fun _ => "gnome/gedit"
    cpvGetversion := fun _ => "3.0" }

/-- One repository group whose only version is installed (for the
NOT_INSTALLED counterexample). -/
def dbTool : Db :=
  { emptyDb with
    portdbCpAll := ["dev/tool"]
    porttreeMatch := fun cp => if cp = "dev/tool" then ["dev/tool-1.0"] else []
    vartreeMatch := fun cpv => if cpv = "dev/tool-1.0" then ["dev/tool-1.0"] else []
    cpvGetkey := fun _ => "dev/tool"
    cpvGetversion := fun _ => "1.0" }

/-- One installed version owning the file `/weird/bar` (for the stale-pattern
file-search counterexample). -/
def dbFiles : Db :=
  { emptyDb with
    vardbCpvAll := ["sys/pkg-1"]
    fileList := fun _ => ["/weird/bar"]
    cpvGetkey := fun _ => "sys/pkg"
    cpvGetversion := fun _ => "1" }

/-- A version whose resolved license is the only field containing "GPL" (for
the details-match witness). -/
def dbLic : Db := { emptyDb with realLicense := fun _ => "GPL-2" }

/-- Installed and repository groups overlapping on one entry (for the
enumeration witness). -/
def dbUnion : Db :=
  { emptyDb with
    vardbCpAll := ["a/x", "b/y"]
    portdbCpAll := ["b/y", "c/z"] }


/-! ## Claim-side reference for the name-search category rule -/

/-- First-occurrence deduplication (for counting *distinct* categories). -/
def distinctCats (keys : List String) : List String :=
  (nameCategories keys).foldl (fun acc c => if c ∈ acc then acc else acc ++ [c]) []

/-- The package emissions of a name search as claim C3 words it (a reference
definition following the claim, for comparison with `searchName`): with more
than one *distinct* category prefix, no results; with exactly one distinct
category prefix, only groups in that category are considered and the prefix
is stripped before matching the bare name portion. -/
def searchNameSpecPkgs (db : Db) (filters : List PkFilter) (keys : List String) :
    List Event :=
  let cats := distinctCats keys
  if 1 < cats.length then []
  else
    let preds := nameStrip keys
    (getAllCp db filters).flatMap fun cp =>
      if (match cats.head? with
          | some c => catOf cp == c
          | none => true)
          && preds.all (fun p => ciSub p (nameOf cp)) then
        (getAllCpv db cp filters).map (packageEv db)
      else []


/-! ## Claim theorems -/

/-- C1: for every search-by-details candidate version, the match computed by
the source's loop (lines 98-106) holds iff every compiled predicate's pattern
is found case-insensitively in at least one of the 8 fetched metadata field
values, with LICENSE post-processed to its resolved form (an AND over
predicates of an OR over fields); on a metadata lookup failure the 8 fields
are the empty strings apart from the resolved LICENSE; and if some predicate
has a single satisfying field, replacing that field's value by a
non-satisfying one makes the version stop matching. -/
theorem c1_details_and_of_ors :
    ∀ (db : Db) (cpv : String) (keys : List String),
      (detailsMatch (getSearchList keys) (detailsFields db cpv) = true
        ↔ ∀ s ∈ getSearchList keys, ∃ v ∈ detailsFields db cpv, ciSub s v = true)
    ∧ (db.auxGet cpv detailsFieldNames = none →
        detailsFields db cpv = ["", "", "", db.realLicense cpv, "", "", "", ""])
    ∧ (∀ s ∈ getSearchList keys, ∀ i, i < (detailsFields db cpv).length →
        ∀ v' : String,
        (∀ j (hj : j < (detailsFields db cpv).length), j ≠ i →
            ciSub s ((detailsFields db cpv).get ⟨j, hj⟩) = false) →
        ciSub s v' = false →
        detailsMatch (getSearchList keys) ((detailsFields db cpv).set i v') = false) := by
  intro db cpv keys
  refine ⟨?_, ?_, ?_⟩
  · simp [detailsMatch, List.all_eq_true, List.any_eq_true]
  · intro h
    simp only [detailsFieldNames] at h
    simp only [detailsFields, getMetadata, detailsFieldNames, h]
    rfl
  · intro s hs i hi v' hother hv'
    have hany : ((detailsFields db cpv).set i v').any (fun v => ciSub s v) = false := by
      rw [List.any_eq_false]
      intro v hv
      obtain ⟨j, hj, hget⟩ := List.mem_iff_getElem.mp hv
      have hjlen : j < (detailsFields db cpv).length := by
        simpa using hj
      by_cases hji : j = i
      · subst hji
        rw [List.getElem_set_self] at hget
        rw [← hget]
        simp [hv']
      · rw [List.getElem_set_ne (by omega)] at hget
        have := hother j hjlen (by omega)
        rw [List.get_eq_getElem] at this
        rw [← hget]
        simp [this]
    simp only [detailsMatch]
    rw [List.all_eq_false]
    exact ⟨s, hs, by simp [hany]⟩

/-- C1 witness: with a version whose resolved license "GPL-2" is the only
field containing "gpl", the version matches, and replacing the LICENSE value
by "MIT" makes it stop matching. -/
theorem c1_details_and_of_ors_witness :
    detailsMatch (getSearchList ["gpl"]) (detailsFields dbLic "x/p-1") = true
    ∧ detailsFields dbLic "x/p-1" = ["", "", "", dbLic.realLicense "x/p-1", "", "", "", ""]
    ∧ detailsMatch (getSearchList ["gpl"]) ((detailsFields dbLic "x/p-1").set 3 "MIT")
        = false := by
  refine ⟨?_, ?_, ?_⟩
  · exact (c1_details_and_of_ors dbLic "x/p-1" ["gpl"]).1.mpr (by decide)
  · exact (c1_details_and_of_ors dbLic "x/p-1" ["gpl"]).2.1 (by decide)
  · exact (c1_details_and_of_ors dbLic "x/p-1" ["gpl"]).2.2 "gpl" (by decide) 3 (by decide)
      "MIT" (by decide) (by decide)

/-- C2 counterexample: in `search_name` with a category filter, the candidate
`cat-b/pkgb` (2nd of 4) is skipped by `continue` before the checkpoint report,
so its checkpoint 50 is never emitted: the update sequence is
`[0, 25, 75, 100, 100]`, not one checkpoint per candidate. -/
theorem c2_counterexample :
    (getAllCp dbSkip []).length = 4
    ∧ (computeEqualSteps (getAllCp dbSkip [])).get? 1 = some 50
    ∧ pctOf (searchName dbSkip [] ["cat-a/zzz"]).1 = [0, 25, 75, 100, 100]
    ∧ (50 : ℚ) ∉ pctOf (searchName dbSkip [] ["cat-a/zzz"]).1
    ∧ (pctOf (searchName dbSkip [] ["cat-a/zzz"]).1).length
        ≠ (getAllCp dbSkip []).length + 2 := by
  decide

/-- C2 amended: the percentage updates of a driver invocation that reaches and
completes its scan loop are an initial 0, one checkpoint per candidate
iteration — except iterations skipped by `search_name`'s category filter —
and a final 100; `search_name` with more than one category-qualified term and
`search_file` with NOT_INSTALLED emit no percentage updates at all, and
`search_details` emits only the initial 0 unless its candidate list is empty
(it then aborts with the TypeError recorded under C4).  The checkpoint
sequence itself is non-decreasing and nonnegative, and the final checkpoint
is within `2⁻⁴⁵` of 100 without necessarily equalling it. -/
theorem c2_amended :
    (∀ (db : Db) (filters : List PkFilter) (groups : List String),
        (searchGroup db filters groups).2 = none
        ∧ pctOf (searchGroup db filters groups).1
            = 0 :: computeEqualSteps (getAllCp db filters) ++ [100])
  ∧ (∀ (db : Db) (filters : List PkFilter) (keys : List String),
        (nameCategories keys).length ≤ 1 →
        (searchName db filters keys).2 = none
        ∧ pctOf (searchName db filters keys).1
            = 0 :: ((computeEqualSteps (getAllCp db filters)).zip
                  (getAllCp db filters)).filterMap
                (fun pc => if nameConsider (nameActiveFilter keys) pc.2 then some pc.1 else none)
              ++ [100])
  ∧ (∀ (db : Db) (filters : List PkFilter) (keys : List String),
        1 < (nameCategories keys).length →
        pctOf (searchName db filters keys).1 = [])
  ∧ (∀ (db : Db) (filters : List PkFilter) (values : List String),
        PkFilter.notInstalled ∉ filters → (∀ v ∈ values, v ≠ "") →
        (searchFile db filters values).2 = none
        ∧ pctOf (searchFile db filters values).1 = 0 :: computeEqualSteps values ++ [100])
  ∧ (∀ (db : Db) (filters : List PkFilter) (values : List String),
        PkFilter.notInstalled ∈ filters →
        pctOf (searchFile db filters values).1 = [])
  ∧ (∀ (db : Db) (filters : List PkFilter) (keys : List String),
        pctOf (searchDetails db filters keys).1
          = if (getAllCp db filters).isEmpty then [0, 100] else [0])
  ∧ (∀ (l : List String) (i j : ℕ) (hi : i < (computeEqualSteps l).length)
        (hj : j < (computeEqualSteps l).length), i ≤ j →
        (computeEqualSteps l).get ⟨i, hi⟩ ≤ (computeEqualSteps l).get ⟨j, hj⟩)
  ∧ (∀ (l : List String) (q : ℚ), q ∈ computeEqualSteps l → 0 ≤ q)
  ∧ (∀ (l : List String), l ≠ [] →
        ∃ q, (computeEqualSteps l).getLast? = some q
          ∧ |q - 100| ≤ (2 : ℚ) ^ (-45 : ℤ)) := by
  refine ⟨searchGroup_pct, searchName_pct, ?_, searchFile_pct, ?_, searchDetails_pct,
    computeEqualSteps_mono, ?_, ?_⟩
  · intro db filters keys h
    rw [(searchName_ambiguous db filters keys h).1]
    rfl
  · intro db filters values h
    rw [(searchFile_err db filters values h).1]
    rfl
  · intro l q hq
    rw [computeEqualSteps_eq_map] at hq
    obtain ⟨i, _, hi⟩ := List.mem_map.mp hq
    rw [← hi]
    exact roundDouble_nonneg _
  · intro l hl
    refine ⟨_, computeEqualSteps_getLast? l hl, ?_⟩
    exact lastStep_close l.length (List.length_pos.mpr hl)

/-- C2 witness: a completed file search emits `[0] ++ steps ++ [100]`, and an
ambiguous name search emits no percentage updates. -/
theorem c2_amended_witness :
    ((searchFile emptyDb [] ["a"]).2 = none
      ∧ pctOf (searchFile emptyDb [] ["a"]).1 = 0 :: computeEqualSteps ["a"] ++ [100])
    ∧ pctOf (searchName emptyDb [] ["x/a", "y/b"]).1 = [] :=
  ⟨c2_amended.2.2.2.1 emptyDb [] ["a"] (by decide) (by decide),
   c2_amended.2.2.1 emptyDb [] ["x/a", "y/b"] (by decide)⟩

/-- C3 counterexample: the terms `["gnome/ge", "gnome/edit"]` carry exactly
one *distinct* category prefix, so by the claim the search should consider
category `gnome` with stripped terms and emit `gnome/gedit`'s version (the
claim-side reference `searchNameSpecPkgs` does); the code counts qualified
*occurrences* (`len(categories) > 1`) and returns with zero emissions. -/
theorem c3_counterexample :
    distinctCats ["gnome/ge", "gnome/edit"] = ["gnome"]
    ∧ pkgsOf (searchName dbGedit [] ["gnome/ge", "gnome/edit"]).1 = []
    ∧ searchNameSpecPkgs dbGedit [] ["gnome/ge", "gnome/edit"]
        = [Event.package "gedit;3.0;amd64;gentoo" Info.available ""] := by
  decide

/-- C3 amended: with more than one category-qualified *term* (occurrences,
not distinct categories) the search completes normally with zero package
emissions and no error; with exactly one category-qualified term whose
category is nonempty, only groups in that category are considered and the
prefix is stripped before matching the bare name portion. -/
theorem c3_amended :
    (∀ (db : Db) (filters : List PkFilter) (keys : List String),
        1 < (nameCategories keys).length →
        (searchName db filters keys).1 = [Event.status "QUERY", Event.allowCancel true]
        ∧ pkgsOf (searchName db filters keys).1 = []
        ∧ (searchName db filters keys).2 = none)
  ∧ (∀ (db : Db) (filters : List PkFilter) (keys : List String) (c : String),
        nameCategories keys = [c] → c ≠ "" →
        pkgsOf (searchName db filters keys).1
          = (getAllCp db filters).flatMap fun cp =>
              if catOf cp == c && (nameStrip keys).all (fun p => ciSub p (nameOf cp)) then
                (db.porttreeMatch cp).map (packageEv db)
              else []) := by
  constructor
  · intro db filters keys h
    obtain ⟨h1, h2⟩ := searchName_ambiguous db filters keys h
    exact ⟨h1, by rw [h1]; rfl, h2⟩
  · intro db filters keys c hcat hc
    rw [searchName_pkgs db filters keys (by rw [hcat]; exact le_refl 1)]
    have hact : nameActiveFilter keys = some c := by
      simp [nameActiveFilter, hcat, hc]
    rw [hact]
    rfl

/-- C3 witness: one category-qualified term restricts to its category with
the prefix stripped; a second group in another category is not emitted. -/
theorem c3_amended_witness :
    pkgsOf (searchName dbGedit [] ["gnome/ged"]).1
      = (getAllCp dbGedit []).flatMap fun cp =>
          if catOf cp == "gnome"
              && (nameStrip ["gnome/ged"]).all (fun p => ciSub p (nameOf cp)) then
            (dbGedit.porttreeMatch cp).map (packageEv dbGedit)
          else [] :=
  c3_amended.2 dbGedit [] ["gnome/ged"] "gnome" (by decide) (by decide)

/-- C4: `search_details` calls `self._get_all_cpv(cp, filters,
filter_newest=False)` (line 91) although `_get_all_cpv` (line 49) accepts no
such keyword (and `_get_metadata(..., in_dict=True)`, line 93, likewise), so
on a database with one candidate group the driver raises an uncaught
`TypeError` after the initial percentage and emits no packages — while
`_get_metadata` itself does degrade a lookup failure to empty strings, and an
empty candidate list completes without error. -/
theorem c4_details_uncaught_typeerror :
    (searchDetails dbDetails [] ["x"]).2
        = some (PyExn.typeError "_get_all_cpv() got an unexpected keyword argument filter_newest")
    ∧ pkgsOf (searchDetails dbDetails [] ["x"]).1 = []
    ∧ pctOf (searchDetails dbDetails [] ["x"]).1 = [0]
    ∧ getMetadata dbDetails "app-text/foo-1.0" ["DESCRIPTION"] = [""]
    ∧ (searchDetails emptyDb [] ["x"]).2 = none := by
  decide

/-- C5: the candidate-group enumeration returns installed groups when
INSTALLED is present; all repository groups when NOT_INSTALLED is present and
INSTALLED absent; otherwise the deduplicated union with all installed groups
first in native order, followed by repository-only groups in native order. -/
theorem c5_enumeration :
    ∀ (db : Db) (filters : List PkFilter),
      (PkFilter.installed ∈ filters → getAllCp db filters = db.vardbCpAll)
    ∧ (PkFilter.installed ∉ filters → PkFilter.notInstalled ∈ filters →
        getAllCp db filters = db.portdbCpAll)
    ∧ (PkFilter.installed ∉ filters → PkFilter.notInstalled ∉ filters →
        (∀ x, x ∈ getAllCp db filters ↔ x ∈ db.vardbCpAll ∨ x ∈ db.portdbCpAll)
        ∧ (db.vardbCpAll.Nodup → (getAllCp db filters).Nodup)
        ∧ (getAllCp db filters).take db.vardbCpAll.length = db.vardbCpAll
        ∧ ((getAllCp db filters).drop db.vardbCpAll.length).Sublist db.portdbCpAll
        ∧ (∀ x ∈ (getAllCp db filters).drop db.vardbCpAll.length,
            x ∉ db.vardbCpAll)) := by
  intro db filters
  refine ⟨?_, ?_, ?_⟩
  · intro h
    simp [getAllCp, h]
  · intro h1 h2
    simp [getAllCp, h1, h2]
  · intro h1 h2
    have hgf : getAllCp db filters
        = db.portdbCpAll.foldl (fun acc cp => if cp ∈ acc then acc else acc ++ [cp])
            db.vardbCpAll := by
      simp [getAllCp, h1, h2]
    obtain ⟨rest, hre, hrs, hrn⟩ := foldl_dedup_split db.portdbCpAll db.vardbCpAll
    refine ⟨?_, ?_, ?_, ?_, ?_⟩
    · intro x
      rw [hgf]
      exact foldl_dedup_mem db.portdbCpAll db.vardbCpAll x
    · intro hnd
      rw [hgf]
      exact foldl_dedup_nodup db.portdbCpAll db.vardbCpAll hnd
    · rw [hgf, hre]
      exact List.take_left _ _
    · rw [hgf, hre, List.drop_left]
      exact hrs
    · rw [hgf, hre, List.drop_left]
      exact hrn

/-- C5 witness on a database with overlapping installed and repository
groups. -/
theorem c5_enumeration_witness :
    getAllCp dbUnion [PkFilter.installed] = ["a/x", "b/y"]
    ∧ getAllCp dbUnion [PkFilter.notInstalled] = ["b/y", "c/z"]
    ∧ ("c/z" ∈ getAllCp dbUnion []
        ↔ ("c/z" ∈ dbUnion.vardbCpAll ∨ "c/z" ∈ dbUnion.portdbCpAll))
    ∧ (getAllCp dbUnion []).Nodup
    ∧ (getAllCp dbUnion []).take dbUnion.vardbCpAll.length = dbUnion.vardbCpAll
    ∧ ((getAllCp dbUnion []).drop dbUnion.vardbCpAll.length).Sublist
        dbUnion.portdbCpAll := by
  obtain ⟨hmem, hnodup, htake, hsub, _⟩ :=
    (c5_enumeration dbUnion []).2.2 (by decide) (by decide)
  exact ⟨(c5_enumeration dbUnion [PkFilter.installed]).1 (by decide),
    (c5_enumeration dbUnion [PkFilter.notInstalled]).2.1 (by decide) (by decide),
    hmem "c/z", hnodup (by decide), htake, hsub⟩

/-- C6 counterexample: after the relative term "bar" sets `is_full_path =
False` and compiles `searchre`, the absolute term "/usr/bin/x" is matched
with the stale "bar" pattern instead of exact path equality: the second term
emits the package again although no file equals "/usr/bin/x". -/
theorem c6_counterexample :
    pkgsOf (searchFile dbFiles [] ["bar", "/usr/bin/x"]).1
        = [Event.package "pkg;1;amd64;gentoo" Info.available "",
           Event.package "pkg;1;amd64;gentoo" Info.available ""]
    ∧ pkgsOf (searchFile dbFiles [] ["bar"]).1
        = [Event.package "pkg;1;amd64;gentoo" Info.available ""]
    ∧ (∀ f ∈ dbFiles.fileList "sys/pkg-1", f ≠ "/usr/bin/x") := by
  decide

/-- C6 amended: a term not beginning with "/" matches a file iff the file
ends, case-insensitively, with "/" followed by the term; a term beginning
with "/" matches by exact (case-sensitive) full-path equality *provided* no
earlier term of the invocation was relative — once a relative term has been
seen, `is_full_path` stays false and a later absolute term is matched against
the most recently compiled relative pattern.  "foo.so" matches
"/usr/lib/foo.so" but not "/usr/lib/libfoo.so.1". -/
theorem c6_amended :
    (∀ (st : FileSt) (key f : String), key.data.head? ≠ some (Char.ofNat 47) →
        fileMatch (fileStep st key) key f = ciSlashSuffix key f)
  ∧ (∀ (key f : String) (earlier : List String), key.data.head? = some (Char.ofNat 47) →
        (∀ t ∈ earlier, t.data.head? = some (Char.ofNat 47)) →
        fileMatch (fileStep (earlier.foldl fileStep ⟨true, none⟩) key) key f = (key == f))
  ∧ (∀ (st : FileSt) (key f p : String), key.data.head? = some (Char.ofNat 47) →
        st = ⟨false, some p⟩ →
        fileMatch (fileStep st key) key f = ciSlashSuffix p f)
  ∧ ciSlashSuffix "foo.so" "/usr/lib/foo.so" = true
  ∧ ciSlashSuffix "foo.so" "/usr/lib/libfoo.so.1" = false := by
  refine ⟨?_, ?_, ?_, by decide, by decide⟩
  · intro st key f h
    simp only [fileStep]
    rw [if_neg (by simpa using h)]
    simp [fileMatch]
  · intro key f earlier hk hall
    have hfold : earlier.foldl fileStep ⟨true, none⟩ = ⟨true, none⟩ := by
      induction earlier with
      | nil => rfl
      | cons a t ih =>
        rw [List.foldl_cons]
        simp only [fileStep]
        rw [if_pos (by simpa using hall a (List.mem_cons_self a t))]
        exact ih fun x hx => hall x (List.mem_cons_of_mem _ hx)
    rw [hfold]
    simp only [fileStep]
    rw [if_pos (by simpa using hk)]
    simp [fileMatch]
  · intro st key f p hk hst
    subst hst
    simp only [fileStep]
    rw [if_pos (by simpa using hk)]
    simp [fileMatch]

/-- C6 witness: a bare term matches via the anchored case-insensitive suffix
rule, and a first absolute term matches by exact equality. -/
theorem c6_amended_witness :
    fileMatch (fileStep ⟨true, none⟩ "foo.so") "foo.so" "/usr/lib/foo.so"
        = ciSlashSuffix "foo.so" "/usr/lib/foo.so"
    ∧ fileMatch (fileStep ((["/a"] : List String).foldl fileStep ⟨true, none⟩) "/usr/bin/x")
        "/usr/bin/x" "/usr/bin/x" = ("/usr/bin/x" == "/usr/bin/x") :=
  ⟨c6_amended.1 ⟨true, none⟩ "foo.so" "/usr/lib/foo.so" (by decide),
   c6_amended.2.1 "/usr/bin/x" "/usr/bin/x" ["/a"] (by decide) (by decide)⟩

/-- C7 counterexample: under the NOT_INSTALLED filter, `search_name` emits
the version `dev/tool-1.0` classified as installed — nothing excludes
installed versions before emission. -/
theorem c7_counterexample :
    pkgsOf (searchName dbTool [PkFilter.notInstalled] ["tool"]).1
        = [Event.package "tool;1.0;amd64;gentoo" Info.installed ""]
    ∧ isInstalledCpv dbTool "dev/tool-1.0" = true := by
  decide

/-- C7 amended: with NOT_INSTALLED (and INSTALLED absent), `search_group` and
`search_name` enumerate all repository groups and emit every porttree version
of each matching group with *no* install-state exclusion; each emitted
version is classified by its actual install state, so installed versions are
emitted (as installed).  (`search_details` aborts on the C4 defect before any
emission.) -/
theorem c7_amended :
    (∀ (db : Db) (filters : List PkFilter) (groups : List String),
        PkFilter.installed ∉ filters → PkFilter.notInstalled ∈ filters →
        pkgsOf (searchGroup db filters groups).1
          = db.portdbCpAll.flatMap fun cp =>
              groups.flatMap fun g =>
                if db.pkGroup cp == g then (db.porttreeMatch cp).map (packageEv db) else [])
  ∧ (∀ (db : Db) (filters : List PkFilter) (keys : List String),
        PkFilter.installed ∉ filters → PkFilter.notInstalled ∈ filters →
        (∀ k ∈ keys, hasSlash k = false) →
        pkgsOf (searchName db filters keys).1
          = db.portdbCpAll.flatMap fun cp =>
              if (nameStrip keys).all (fun p => ciSub p (nameOf cp)) then
                (db.porttreeMatch cp).map (packageEv db)
              else [])
  ∧ (∀ (db : Db) (cpv : String), db.vartreeMatch cpv ≠ [] →
        packageEv db cpv
          = Event.package (cpvToId db cpv) Info.installed
              ((getMetadata db cpv ["DESCRIPTION"]).getD 0 "")) := by
  refine ⟨?_, ?_, ?_⟩
  · intro db filters groups h1 h2
    rw [searchGroup_pkgs]
    have hcp : getAllCp db filters = db.portdbCpAll := by
      simp [getAllCp, h1, h2]
    rw [hcp]
    rfl
  · intro db filters keys h1 h2 hk
    have hcat : nameCategories keys = [] := by
      apply List.filterMap_eq_nil.mpr
      intro k hkm
      rw [hk k hkm]
      rfl
    rw [searchName_pkgs db filters keys (by rw [hcat]; exact Nat.zero_le 1)]
    have hcp : getAllCp db filters = db.portdbCpAll := by
      simp [getAllCp, h1, h2]
    have hact : nameActiveFilter keys = none := by
      simp [nameActiveFilter, hcat]
    rw [hcp, hact]
    rfl
  · intro db cpv h
    unfold packageEv isInstalledCpv
    rw [if_pos (by simpa using h)]

/-- C7 amended witness on the installed-version database. -/
theorem c7_amended_witness :
    pkgsOf (searchName dbTool [PkFilter.notInstalled] ["tool"]).1
      = dbTool.portdbCpAll.flatMap (fun cp =>
          if (nameStrip ["tool"]).all (fun p => ciSub p (nameOf cp)) then
            (dbTool.porttreeMatch cp).map (packageEv dbTool)
          else [])
    ∧ packageEv dbTool "dev/tool-1.0"
        = Event.package (cpvToId dbTool "dev/tool-1.0") Info.installed
            ((getMetadata dbTool "dev/tool-1.0" ["DESCRIPTION"]).getD 0 "") :=
  ⟨c7_amended.2.1 dbTool [PkFilter.notInstalled] ["tool"] (by decide) (by decide)
      (by decide),
   c7_amended.2.2 dbTool "dev/tool-1.0" (by decide)⟩

/-- C8 counterexample: for 11 work items the last step is
`11 ⊛ (100 ⊘ 11) = 100 + 2⁻⁴⁶` in double arithmetic — not exactly 100
(and not `(10+1)·100.0/11 = 1100.0/11 = 100.0` as the claim's formula,
evaluated left-to-right, would give). -/
theorem c8_counterexample :
    (computeEqualSteps (List.range 11)).length = 11
    ∧ (computeEqualSteps (List.range 11)).getLast?
        = some ((7036874417766401 : ℚ) / 70368744177664)
    ∧ (computeEqualSteps (List.range 11)).getLast? ≠ some 100 := by
  decide

/-- C8 amended: for a list of `n` work items the step computation returns a
sequence of length `n` whose `i`-th element (0-based) is the correctly
rounded double product `(i+1) ⊛ (100 ⊘ n)`; the sequence is empty for
`n = 0`, non-decreasing, and its last element (when `n > 0`) is within
`2⁻⁴⁵` of 100.0 — but need not equal 100.0 exactly. -/
theorem c8_amended :
    ∀ (l : List String),
      (computeEqualSteps l).length = l.length
      ∧ (l = [] → computeEqualSteps l = [])
      ∧ (∀ i (hi : i < (computeEqualSteps l).length),
          (computeEqualSteps l).get ⟨i, hi⟩
            = fmul ((i : ℚ) + 1) (fdiv 100 (l.length : ℚ)))
      ∧ (∀ i j (hi : i < (computeEqualSteps l).length)
          (hj : j < (computeEqualSteps l).length), i ≤ j →
          (computeEqualSteps l).get ⟨i, hi⟩ ≤ (computeEqualSteps l).get ⟨j, hj⟩)
      ∧ (l ≠ [] → ∃ q, (computeEqualSteps l).getLast? = some q
          ∧ |q - 100| ≤ (2 : ℚ) ^ (-45 : ℤ)) := by
  intro l
  refine ⟨computeEqualSteps_length l, ?_, computeEqualSteps_get l,
    computeEqualSteps_mono l, ?_⟩
  · intro h
    rw [h]
    rfl
  · intro hl
    refine ⟨_, computeEqualSteps_getLast? l hl, ?_⟩
    exact lastStep_close l.length (List.length_pos.mpr hl)

/-- C8 witness at three work items. -/
theorem c8_amended_witness :
    (computeEqualSteps ["a", "b", "c"]).length = 3
    ∧ (∃ q, (computeEqualSteps ["a", "b", "c"]).getLast? = some q
        ∧ |q - 100| ≤ (2 : ℚ) ^ (-45 : ℤ)) :=
  ⟨(c8_amended ["a", "b", "c"]).1, (c8_amended ["a", "b", "c"]).2.2.2.2 (by decide)⟩

/-- C9: a search-by-file invocation whose filters contain NOT_INSTALLED
reports exactly one structured "cannot get file list" error, emits zero
packages and zero percentage updates, and aborts before touching any
candidate. -/
theorem c9_file_invalid_filter :
    ∀ (db : Db) (filters : List PkFilter) (values : List String),
      PkFilter.notInstalled ∈ filters →
      (searchFile db filters values).1
          = [Event.status "QUERY", Event.allowCancel true,
             Event.error "CANNOT_GET_FILELIST"
               "search-file is not available with ~installed filter"]
      ∧ (searchFile db filters values).2 = none
      ∧ errsOf (searchFile db filters values).1
          = [Event.error "CANNOT_GET_FILELIST"
               "search-file is not available with ~installed filter"]
      ∧ pkgsOf (searchFile db filters values).1 = []
      ∧ pctOf (searchFile db filters values).1 = [] := by
  intro db filters values h
  obtain ⟨h1, h2⟩ := searchFile_err db filters values h
  rw [h1]
  exact ⟨rfl, h2, rfl, rfl, rfl⟩

/-- C9 witness: the spec's own scenario
`search-by-file(filters={NOT_INSTALLED}, paths=["/usr/bin/x"])`. -/
theorem c9_file_invalid_filter_witness :
    (searchFile emptyDb [PkFilter.notInstalled] ["/usr/bin/x"]).1
      = [Event.status "QUERY", Event.allowCancel true,
         Event.error "CANNOT_GET_FILELIST"
           "search-file is not available with ~installed filter"]
    ∧ pkgsOf (searchFile emptyDb [PkFilter.notInstalled] ["/usr/bin/x"]).1 = [] := by
  obtain ⟨h1, _, _, h4, _⟩ :=
    c9_file_invalid_filter emptyDb [PkFilter.notInstalled] ["/usr/bin/x"] (by decide)
  exact ⟨h1, h4⟩

/-- C10: the per-group version expansion ignores its filters argument
entirely and always queries the full repository tree, so its result is
identical for any two filter sets. -/
theorem c10_expansion_filter_independent :
    ∀ (db : Db) (cp : String) (f1 f2 : List PkFilter),
      getAllCpv db cp f1 = getAllCpv db cp f2
      ∧ getAllCpv db cp f1 = db.porttreeMatch cp :=
  fun _ _ _ _ => ⟨rfl, rfl⟩

end PK
